import Mathlib

/-!
Verification development for the symbol-masks extension.

The embedding translates, from the repository's sources:
  * `ScopedDoc` / `ScopedDoc.tokenize` / `ScopedDoc.getTokens`
    from `src/scoped-document.ts` (grammar state chained line to line);
  * `MaskController.apply` / `MaskController.clear`, together with the
    per-match decision loop (`decideLoop`), the scope check (`scopeEval`,
    `scopeWithin`), the keyed-replacement lookup (`getMatchReplace`), the
    decoration-key derivation, the per-key range accumulation
    (`processMatch`, `applyAcc`) and the cache-eviction pass, from
    `mask-controller.ts`.

Host-editor facilities (document text, `positionAt`, selections, the
rendering API `setDecorations`, the caret-style setting) are external
collaborators and are modelled as explicit data: an `EditorState` carries
the text, an offset-to-position function, the selection list and the
per-key rendered ranges; the caret style and the regex engine (`Pattern.exec`)
are passed in as parameters.  JavaScript string-option truthiness is made
explicit through `jsTruthy`.
-/

set_option maxHeartbeats 1000000

/-- A token produced by the grammar: a half-open span on one line plus its
scope strings (vscode-textmate `IToken`). -/
structure Token where
  startIndex : Nat
  endIndex : Nat
  scopes : List String
deriving DecidableEq

/-- One regex match: `match.index` and the matched text `match[0]`. -/
structure RegexMatch where
  index : Nat
  matched : String
deriving DecidableEq

/-- A compiled pattern: its `source` string and its global-flag `exec`
behaviour, as a function from the current `lastIndex` to the next match
(`none` when no further match exists). -/
structure Pattern where
  source : String
  exec : Nat → Option RegexMatch

/-- One value of the `MatchBasedReplace` interface: the per-literal override
(`scope?`, `text`, `hover?` and the style fields). -/
structure MatchReplaceValue where
  scope : Option String
  text : String
  hover : Option String
  backgroundColor : Option String
  border : Option String
  borderColor : Option String
  color : Option String
  fontStyle : Option String
  fontWeight : Option String
  css : Option String
deriving DecidableEq

/-- The `text` field of a `Mask`: either a literal replacement string or a
keyed replacement map (`string | MatchBasedReplace`). -/
inductive MaskText where
  | literal (s : String)
  | byMatch (entries : List (String × MatchReplaceValue))
deriving DecidableEq

/-- The `Mask` interface of `mask-controller.ts`. -/
structure Mask where
  text : Option MaskText
  scope : Option String
  hover : Option String
  backgroundColor : Option String
  border : Option String
  borderColor : Option String
  color : Option String
  fontStyle : Option String
  fontWeight : Option String
  css : Option String
deriving DecidableEq

/-- One rendered decoration: the range (as start/end line-character pairs)
and the hover message (`vscode.DecorationOptions`). -/
structure DecorationOpts where
  rangeStart : Nat × Nat
  rangeEnd : Nat × Nat
  hoverMessage : Option String
deriving DecidableEq

/-- The host editor as the controller sees it: the document text, the
offset-to-position map, the selection list (offset pairs, possibly
reversed) and, per decoration key, the ranges currently rendered. -/
structure EditorState where
  docText : String
  positionAt : Nat → Nat × Nat
  selections : List (Nat × Nat)
  rendered : String → List DecorationOpts

/-- JavaScript truthiness of an optional string: `undefined` and `""` are
falsy. -/
def jsTruthy : Option String → Bool
  | none => false
  | some s => decide (s ≠ "")

/-- The string content of an optional string (used only under `jsTruthy`). -/
def optStr (o : Option String) : String :=
  o.getD ""

/-- Character-list test: does the first list start with the second?  Used
to model the JavaScript `String.startsWith` calls executably. -/
def charsStarts : List Char → List Char → Bool
  | _, [] => true
  | [], _ :: _ => false
  | c :: cs, p :: ps => if c = p then charsStarts cs ps else false

/-- `s.startsWith(p)` over the underlying character lists. -/
def strStarts (s p : String) : Bool :=
  charsStarts s.data p.data

/-- `s` ends with `p`, over the reversed character lists. -/
def strEnds (s p : String) : Bool :=
  charsStarts s.data.reverse p.data.reverse

/-- Selection normalization: `if (selectionEnd < selectionStart) swap`. -/
def normSel (sel : Nat × Nat) : Nat × Nat :=
  if sel.2 < sel.1 then (sel.2, sel.1) else sel

/-- The reveal test of the selection loop: for a `line`-style caret the
exact match bounds are used; otherwise (block/underline carets) the start
bound is widened left by one character (`match.index - 1`, computed over
the integers as in JavaScript). -/
def revealsMatch (cursorStyle : String) (selStart selEnd mIndex mLen : Nat) : Bool :=
  if strStarts cursorStyle "line" then
    decide (mIndex ≤ selEnd) && decide (selStart ≤ mIndex + mLen)
  else
    decide ((mIndex : Int) - 1 ≤ (selEnd : Int)) && decide (selStart ≤ mIndex + mLen)

/-- The scope comparison: `scope.startsWith(flt)` and the remainder after
`flt` is empty or starts with a dot. -/
def scopeWithin (flt scope : String) : Bool :=
  strStarts scope flt &&
    (decide ((scope.drop flt.length).length = 0) || strStarts (scope.drop flt.length) ".")

/-- The scope section of the selection loop: when a scope filter is present
(`mask.scope || matchReplace?.scope`), look the line's tokens up, find the
token containing the match's start character and test its scopes against
the per-match override scope when that is truthy, else against the uniform
mask scope; when no token data is available nothing is decorated.  When no
filter is present the symbol is decorated. -/
def scopeEval (lt : Nat → Option (List Token)) (line ch : Nat)
    (maskScope mrScope : Option String) : Bool :=
  if jsTruthy maskScope || jsTruthy mrScope then
    match lt line with
    | some toks =>
        toks.any fun t =>
          decide (t.startIndex ≤ ch) && decide (ch < t.endIndex) &&
            (if jsTruthy mrScope then t.scopes.any (fun s => scopeWithin (optStr mrScope) s)
             else if jsTruthy maskScope then t.scopes.any (fun s => scopeWithin (optStr maskScope) s)
             else false)
    | none => false
  else true

/-- The `for (const selection of this.editor.selections)` loop deciding
`decorateSymbol`: a revealing selection breaks with `false`; a selection
finding the decision already made continues; otherwise the scope section
recomputes the decision. -/
def decideLoop (cursorStyle : String) (lt : Nat → Option (List Token))
    (line ch mIndex mLen : Nat) (maskScope mrScope : Option String) :
    Bool → List (Nat × Nat) → Bool
  | dec, [] => dec
  | dec, sel :: rest =>
    if revealsMatch cursorStyle (normSel sel).1 (normSel sel).2 mIndex mLen then false
    else if dec then
      decideLoop cursorStyle lt line ch mIndex mLen maskScope mrScope dec rest
    else
      decideLoop cursorStyle lt line ch mIndex mLen maskScope mrScope
        (scopeEval lt line ch maskScope mrScope) rest

/-- Lookup in a keyed replacement map (`match[0] in mask.text`). -/
def findEntry : List (String × MatchReplaceValue) → String → Option MatchReplaceValue
  | [], _ => none
  | e :: rest, k => if e.1 = k then some e.2 else findEntry rest k

/-- `matchReplace`: the per-match override when `mask.text` is a keyed map
containing the matched text. -/
def getMatchReplace (mask : Mask) (matched : String) : Option MatchReplaceValue :=
  match mask.text with
  | some (MaskText.byMatch entries) => findEntry entries matched
  | _ => none

/-- The mask handed to `initialize` for a derived decoration key (the
object literal built from the `matchReplace` fields). -/
def derivedMask (e : MatchReplaceValue) : Mask :=
  { text := some (MaskText.literal e.text), scope := e.scope, hover := none,
    backgroundColor := e.backgroundColor, border := e.border,
    borderColor := e.borderColor, color := e.color, fontStyle := e.fontStyle,
    fontWeight := e.fontWeight, css := e.css }

/-- Key membership in an association list (JavaScript `Map.has`). -/
def hasKey {α : Type} : List (String × α) → String → Bool
  | [], _ => false
  | e :: rest, k => if e.1 = k then true else hasKey rest k

/-- Membership in a list of keys (JavaScript `Set.has`). -/
def memKey : List String → String → Bool
  | [], _ => false
  | x :: rest, k => if x = k then true else memKey rest k

/-- `initialize(id, mask)`: create the decoration resource for `id` unless
one already exists.  The stored value records the mask the resource was
created from. -/
def initDecoration (dmap : List (String × Mask)) (id : String) (mask : Mask) :
    List (String × Mask) :=
  if hasKey dmap id then dmap else dmap ++ [(id, mask)]

/-- `decorationOptions.get(key) || []`. -/
def optGet : List (String × List DecorationOpts) → String → List DecorationOpts
  | [], _ => []
  | e :: rest, k => if e.1 = k then e.2 else optGet rest k

/-- Push one decoration option onto the per-key list, creating the key's
(initially empty) list on first use, as the `decorationOptions` map does. -/
def optPush (os : List (String × List DecorationOpts)) (k : String) (v : DecorationOpts) :
    List (String × List DecorationOpts) :=
  match os with
  | [] => [(k, [v])]
  | e :: rest => if e.1 = k then (e.1, e.2 ++ [v]) :: rest else e :: optPush rest k v

/-- `editor.setDecorations(handle-of-k, v)` on the rendered state. -/
def updateRendered (r : String → List DecorationOpts) (k : String) (v : List DecorationOpts) :
    String → List DecorationOpts :=
  fun k' => if k' = k then v else r k'

/-- The `while (match = pattern.exec(text))` scan: collect successive
matches from the current `lastIndex`, stopping at exhaustion or at the
first zero-length match (`if (match[0].length === 0) break`).  The fuel
argument bounds the recursion; `textLen + 1` steps suffice for any
position-respecting `exec` (proved below). -/
def scanAux (exec : Nat → Option RegexMatch) : Nat → Nat → List RegexMatch
  | 0, _ => []
  | fuel + 1, pos =>
    match exec pos with
    | none => []
    | some m =>
        if m.matched.length = 0 then []
        else m :: scanAux exec fuel (m.index + m.matched.length)

/-- The accumulator of the match loop: the per-key decoration options, the
derived keys touched this call (`matchReplaceKeys`, in insertion order) and
the decoration resource cache (`decorationTypeMap`). -/
structure MatchAcc where
  options : List (String × List DecorationOpts)
  mrKeys : List String
  dmap : List (String × Mask)
deriving DecidableEq

/-- The body of the match loop for one match: decide decoration via the
selection loop, resolve the decoration key (base key, or
`pattern.source + "@@@" + matchReplace.text` when the per-match override
has truthy text, creating that derived resource on first encounter) and
push the match's range under that key. -/
def processMatch (cursorStyle : String) (lt : Nat → Option (List Token))
    (posAt : Nat → Nat × Nat) (sels : List (Nat × Nat))
    (pattern : Pattern) (mask : Mask) (acc : MatchAcc) (m : RegexMatch) : MatchAcc :=
  let startPos := posAt m.index
  let endPos := posAt (m.index + m.matched.length)
  let matchReplace := getMatchReplace mask m.matched
  let dec := decideLoop cursorStyle lt startPos.1 startPos.2 m.index m.matched.length
    mask.scope (matchReplace.bind fun e => e.scope) false sels
  if dec then
    match matchReplace with
    | some e =>
        if e.text ≠ "" then
          let key := pattern.source ++ "@@@" ++ e.text
          let acc1 :=
            if memKey acc.mrKeys key then acc
            else { acc with mrKeys := acc.mrKeys ++ [key],
                            dmap := initDecoration acc.dmap key (derivedMask e) }
          { acc1 with options := optPush acc1.options key ⟨startPos, endPos, e.hover⟩ }
        else { acc with options := optPush acc.options pattern.source ⟨startPos, endPos, mask.hover⟩ }
    | none => { acc with options := optPush acc.options pattern.source ⟨startPos, endPos, mask.hover⟩ }
  else acc

/-- The eviction predicate of the final pass: keep the pattern's base key
and this call's derived keys. -/
def keepKey (src : String) (mrKeys : List String) (k : String) : Bool :=
  if k = src then true else memKey mrKeys k

/-- The match list `apply` scans: all matches of the pattern over the
document text. -/
def applyMatches (pattern : Pattern) (ed : EditorState) : List RegexMatch :=
  scanAux pattern.exec (ed.docText.length + 1) 0

/-- The state of the match loop after all matches: starts from the cache
with the base resource ensured (`if (!has(pattern.source)) initialize`),
empty options and no derived keys, then folds `processMatch` over the
matches. -/
def applyAcc (cursorStyle : String) (lt : Nat → Option (List Token))
    (pattern : Pattern) (mask : Mask) (ed : EditorState)
    (dmap : List (String × Mask)) : MatchAcc :=
  (applyMatches pattern ed).foldl
    (processMatch cursorStyle lt ed.positionAt ed.selections pattern mask)
    ⟨[], [], if hasKey dmap pattern.source then dmap else initDecoration dmap pattern.source mask⟩

/-- `MaskController`: the editor (possibly absent), the token access of the
attached `ScopedDocument` (`fun line => scopedDocument?.getTokens(line)`,
`none` when no document or no grammar is available) and the decoration
resource cache. -/
structure MaskController where
  editor : Option EditorState
  scopedTokens : Nat → Option (List Token)
  decorationTypeMap : List (String × Mask)

/-- The `for (const decorationKey of matchReplaceKeys.values())` commit
pass: render the accumulated range list for every derived key whose
resource exists. -/
def commitDerived (acc : MatchAcc) (r : String → List DecorationOpts) :
    String → List DecorationOpts :=
  acc.mrKeys.foldl
    (fun r k => if hasKey acc.dmap k then updateRendered r k (optGet acc.options k) else r) r

/-- The base-key commit: render the base key's accumulated range list when
its resource exists. -/
def commitBase (src : String) (acc : MatchAcc) (r : String → List DecorationOpts) :
    String → List DecorationOpts :=
  if hasKey acc.dmap src then updateRendered r src (optGet acc.options src) else r

/-- The eviction pass: render the empty list for every cached key that is
neither the base key nor one of this call's derived keys. -/
def evictStale (src : String) (acc : MatchAcc) (r : String → List DecorationOpts) :
    String → List DecorationOpts :=
  acc.dmap.foldl
    (fun r e => if keepKey src acc.mrKeys e.1 then r else updateRendered r e.1 []) r

/-- `MaskController.apply(pattern, mask)`: no-op without an editor; else
ensure the base resource, scan and process all matches, commit the range
lists of the derived keys and of the base key, then clear and evict every
cached key that is neither the base key nor a derived key of this call. -/
def MaskController.apply (cursorStyle : String) (pattern : Pattern) (mask : Mask)
    (st : MaskController) : MaskController :=
  match st.editor with
  | none => st
  | some ed =>
    let acc := applyAcc cursorStyle st.scopedTokens pattern mask ed st.decorationTypeMap
    let r3 := evictStale pattern.source acc
      (commitBase pattern.source acc (commitDerived acc ed.rendered))
    { st with editor := some { ed with rendered := r3 },
              decorationTypeMap := acc.dmap.filter fun e => keepKey pattern.source acc.mrKeys e.1 }

/-- `MaskController.clear()`: with an editor, render the empty range list
for every cached key; in every case empty the cache afterwards (the
`decorationTypeMap.clear()` call sits outside the editor guard). -/
def MaskController.clear (st : MaskController) : MaskController :=
  match st.editor with
  | none => { st with decorationTypeMap := [] }
  | some ed =>
    let r := st.decorationTypeMap.foldl (fun r e => updateRendered r e.1 []) ed.rendered
    { st with editor := some { ed with rendered := r }, decorationTypeMap := [] }

/-- `ScopedDocument` from `scoped-document.ts`, over an opaque continuation
state type `σ`: the document as its lines, the grammar as its
`tokenizeLine(text, previousState)` function, and the per-line end-state
map. -/
structure ScopedDoc (σ : Type) where
  document : Option (List String)
  grammar : Option (String → Option σ → List Token × σ)
  grammarState : List (Nat × σ)

/-- `grammarState.get(i)` (JavaScript `Map.get`, `undefined` as `none`). -/
def lookupState {σ : Type} : List (Nat × σ) → Nat → Option σ
  | [], _ => none
  | e :: rest, i => if e.1 = i then some e.2 else lookupState rest i

/-- `grammarState.set(i, v)` (JavaScript `Map.set`). -/
def setState {σ : Type} : List (Nat × σ) → Nat → σ → List (Nat × σ)
  | [], i, v => [(i, v)]
  | e :: rest, i, v => if e.1 = i then (i, v) :: rest else e :: setState rest i v

/-- The loop body of `tokenize()`: for each line in increasing order, read
the stored state of the previous line (`grammarState.get(i - 1) || null`,
`none` for line 0), tokenize the line and store its end state. -/
def tokenizeGo {σ : Type} (g : String → Option σ → List Token × σ) :
    List String → Nat → List (Nat × σ) → List (Nat × σ)
  | [], _, m => m
  | l :: rest, i, m =>
    let prev := if i = 0 then none else lookupState m (i - 1)
    tokenizeGo g rest (i + 1) (setState m i (g l prev).2)

/-- `ScopedDocument.tokenize()`: clear the state map first; when both a
document and a grammar are present, rebuild the whole map by the chained
line loop; otherwise leave it empty. -/
def ScopedDoc.tokenize {σ : Type} (sd : ScopedDoc σ) : ScopedDoc σ :=
  match sd.document, sd.grammar with
  | some lines, some g => { sd with grammarState := tokenizeGo g lines 0 [] }
  | _, _ => { sd with grammarState := [] }

/-- `ScopedDocument.getTokens(lineNumber)`: re-tokenize the single line
with the stored predecessor end-state; `none` when no grammar is loaded. -/
def ScopedDoc.getTokens {σ : Type} (sd : ScopedDoc σ) (lineNumber : Nat) :
    Option (List Token) :=
  match sd.grammar with
  | none => none
  | some g =>
    let prev := if lineNumber = 0 then none else lookupState sd.grammarState (lineNumber - 1)
    let lineText :=
      match sd.document with
      | some lines => lines.getD lineNumber ""
      | none => ""
    some (g lineText prev).1

/-- Reference chain for the tokenizer, following the specification's words:
line `i` is tokenized with the end-state of line `i - 1` threaded directly
(no state map), `none` for line 0, and the resulting end-states are listed
in line order. -/
def chainStates {σ : Type} (g : String → Option σ → List Token × σ) :
    List String → Nat → Option σ → List (Nat × σ)
  | [], _, _ => []
  | l :: rest, i, prev =>
    let s := (g l prev).2
    (i, s) :: chainStates g rest (i + 1) (some s)

/-- The specification's collapsed decoration rule (design note §9):
decorate exactly when no selection reveals the match and the scope rule
(when a filter is present) matches. -/
def collapsedRule (cursorStyle : String) (lt : Nat → Option (List Token))
    (line ch mIndex mLen : Nat) (maskScope mrScope : Option String)
    (sels : List (Nat × Nat)) : Bool :=
  !(sels.any fun sel => revealsMatch cursorStyle (normSel sel).1 (normSel sel).2 mIndex mLen)
    && scopeEval lt line ch maskScope mrScope

/-- The scope filter a match is checked against when one is present: the
per-match override scope when truthy, else the uniform mask scope. -/
def effectiveScopeFilter (maskScope mrScope : Option String) : String :=
  if jsTruthy mrScope then optStr mrScope else optStr maskScope

/-! ## Lemmas about the per-match decision loop -/

/-- Unfolding of `decideLoop` on the empty selection list. -/
theorem decideLoop_nil (cursorStyle : String) (lt : Nat → Option (List Token))
    (line ch mIndex mLen : Nat) (maskScope mrScope : Option String) (dec : Bool) :
    decideLoop cursorStyle lt line ch mIndex mLen maskScope mrScope dec [] = dec := rfl

/-- Unfolding of `decideLoop` on a selection list with a head. -/
theorem decideLoop_cons (cursorStyle : String) (lt : Nat → Option (List Token))
    (line ch mIndex mLen : Nat) (maskScope mrScope : Option String) (dec : Bool)
    (s : Nat × Nat) (rest : List (Nat × Nat)) :
    decideLoop cursorStyle lt line ch mIndex mLen maskScope mrScope dec (s :: rest) =
      if revealsMatch cursorStyle (normSel s).1 (normSel s).2 mIndex mLen then false
      else if dec then
        decideLoop cursorStyle lt line ch mIndex mLen maskScope mrScope dec rest
      else
        decideLoop cursorStyle lt line ch mIndex mLen maskScope mrScope
          (scopeEval lt line ch maskScope mrScope) rest := rfl

/-- A revealing selection anywhere in the list forces the loop's decision
to `false`, whatever the decision accumulated so far. -/
theorem decideLoop_reveal_false (cursorStyle : String) (lt : Nat → Option (List Token))
    (line ch mIndex mLen : Nat) (maskScope mrScope : Option String) :
    ∀ (sels : List (Nat × Nat)) (dec : Bool),
      (∃ sel, sel ∈ sels ∧
        revealsMatch cursorStyle (normSel sel).1 (normSel sel).2 mIndex mLen = true) →
      decideLoop cursorStyle lt line ch mIndex mLen maskScope mrScope dec sels = false := by
  intro sels
  induction sels with
  | nil => intro dec h; rcases h with ⟨sel, hmem, _⟩; cases hmem
  | cons s rest ih =>
    intro dec h
    rcases h with ⟨sel, hmem, hrev⟩
    rw [decideLoop_cons]
    by_cases hs : revealsMatch cursorStyle (normSel s).1 (normSel s).2 mIndex mLen = true
    · rw [if_pos hs]
    · have hsel : sel ∈ rest := by
        rcases List.mem_cons.mp hmem with h1 | h1
        · exact absurd (h1 ▸ hrev) hs
        · exact h1
      rw [if_neg hs]
      cases dec with
      | true => rw [if_pos rfl]; exact ih true ⟨sel, hsel, hrev⟩
      | false =>
        rw [if_neg (by simp : ¬ (false = true))]
        exact ih _ ⟨sel, hsel, hrev⟩

/-- With no revealing selection and at least one selection, the loop
computes `dec || scopeEval`. -/
theorem decideLoop_no_reveal (cursorStyle : String) (lt : Nat → Option (List Token))
    (line ch mIndex mLen : Nat) (maskScope mrScope : Option String) :
    ∀ (sels : List (Nat × Nat)) (dec : Bool),
      (∀ sel ∈ sels,
        revealsMatch cursorStyle (normSel sel).1 (normSel sel).2 mIndex mLen = false) →
      sels ≠ [] →
      decideLoop cursorStyle lt line ch mIndex mLen maskScope mrScope dec sels =
        (dec || scopeEval lt line ch maskScope mrScope) := by
  intro sels
  induction sels with
  | nil => intro dec _ hne; exact absurd rfl hne
  | cons s rest ih =>
    intro dec hnr _
    have hs : revealsMatch cursorStyle (normSel s).1 (normSel s).2 mIndex mLen = false :=
      hnr s (List.mem_cons_self s rest)
    have hs' : ¬ (revealsMatch cursorStyle (normSel s).1 (normSel s).2 mIndex mLen = true) := by
      simp [hs]
    have hrest : ∀ sel ∈ rest,
        revealsMatch cursorStyle (normSel sel).1 (normSel sel).2 mIndex mLen = false :=
      fun sel hm => hnr sel (List.mem_cons_of_mem s hm)
    rw [decideLoop_cons, if_neg hs']
    cases rest with
    | nil =>
      cases dec with
      | false => rw [if_neg (by simp : ¬ (false = true)), decideLoop_nil]; simp
      | true => rw [if_pos rfl, decideLoop_nil]; simp
    | cons r rest' =>
      have hne' : r :: rest' ≠ [] := by simp
      cases dec with
      | false =>
        rw [if_neg (by simp : ¬ (false = true)), ih _ hrest hne']
        simp
      | true =>
        rw [if_pos rfl, ih _ hrest hne']

/-- If the loop decides `true`, either the decision was already `true` on
entry or the scope section evaluated to `true`. -/
theorem decideLoop_true_scopeEval (cursorStyle : String) (lt : Nat → Option (List Token))
    (line ch mIndex mLen : Nat) (maskScope mrScope : Option String) :
    ∀ (sels : List (Nat × Nat)) (dec : Bool),
      decideLoop cursorStyle lt line ch mIndex mLen maskScope mrScope dec sels = true →
      dec = true ∨ scopeEval lt line ch maskScope mrScope = true := by
  intro sels
  induction sels with
  | nil => intro dec h; exact Or.inl h
  | cons s rest ih =>
    intro dec h
    rw [decideLoop_cons] at h
    by_cases hs : revealsMatch cursorStyle (normSel s).1 (normSel s).2 mIndex mLen = true
    · rw [if_pos hs] at h; cases h
    · rw [if_neg hs] at h
      cases dec with
      | true => exact Or.inl rfl
      | false =>
        rw [if_neg (by simp : ¬ (false = true))] at h
        rcases ih _ h with h1 | h1
        · exact Or.inr h1
        · exact Or.inr h1

/-- When a scope filter is present and the scope section evaluates to
`true`, the line's tokens were available and some token containing the
character has a scope within the effective filter. -/
theorem scopeEval_true_filter (lt : Nat → Option (List Token)) (line ch : Nat)
    (maskScope mrScope : Option String)
    (hf : jsTruthy maskScope = true ∨ jsTruthy mrScope = true)
    (hE : scopeEval lt line ch maskScope mrScope = true) :
    ∃ toks, lt line = some toks ∧
      ∃ t, t ∈ toks ∧ (t.startIndex ≤ ch ∧ ch < t.endIndex) ∧
        ∃ s, s ∈ t.scopes ∧ scopeWithin (effectiveScopeFilter maskScope mrScope) s = true := by
  have hcond : (jsTruthy maskScope || jsTruthy mrScope) = true := by
    rcases hf with h | h <;> simp [h]
  rw [scopeEval, if_pos hcond] at hE
  cases hlt : lt line with
  | none => rw [hlt] at hE; cases hE
  | some toks =>
    rw [hlt] at hE
    refine ⟨toks, rfl, ?_⟩
    rcases List.any_eq_true.mp hE with ⟨t, ht, hand⟩
    have hand' : (decide (t.startIndex ≤ ch) = true ∧ decide (ch < t.endIndex) = true) ∧
        (if jsTruthy mrScope then t.scopes.any (fun s => scopeWithin (optStr mrScope) s)
         else if jsTruthy maskScope then t.scopes.any (fun s => scopeWithin (optStr maskScope) s)
         else false) = true := by
      rcases Bool.and_eq_true_iff.mp hand with ⟨hb, hin⟩
      exact ⟨Bool.and_eq_true_iff.mp hb, hin⟩
    rcases hand' with ⟨⟨h1, h2⟩, hin⟩
    refine ⟨t, ht, ⟨of_decide_eq_true h1, of_decide_eq_true h2⟩, ?_⟩
    by_cases hm : jsTruthy mrScope = true
    · rw [if_pos hm] at hin
      rcases List.any_eq_true.mp hin with ⟨s, hsm, hsw⟩
      exact ⟨s, hsm, by rw [effectiveScopeFilter, if_pos hm]; exact hsw⟩
    · have hms : jsTruthy maskScope = true := by
        rcases hf with h | h
        · exact h
        · exact absurd h hm
      rw [if_neg hm, if_pos hms] at hin
      rcases List.any_eq_true.mp hin with ⟨s, hsm, hsw⟩
      refine ⟨s, hsm, ?_⟩
      rw [effectiveScopeFilter, if_neg hm]
      exact hsw

/-! ## Concrete fixtures used by witnesses and counterexamples -/

/-- A token-lookup with no token data (no grammar loaded). -/
def noTokens : Nat → Option (List Token) := fun _ => none

/-- A token-lookup returning one `keyword.operator.comparison` token. -/
def kwTokens : Nat → Option (List Token) :=
  fun _ => some [⟨0, 5, ["keyword.operator.comparison"]⟩]

/-- Offset-to-position on a one-line document. -/
def posId : Nat → Nat × Nat := fun n => (0, n)

/-- A mask with no replacement, no scope and no styles. -/
def maskPlain : Mask := ⟨none, none, none, none, none, none, none, none, none, none⟩

/-- A pattern with source `x` that never matches. -/
def patX : Pattern := ⟨"x", fun _ => none⟩

/-- The empty match-loop accumulator. -/
def accEmpty : MatchAcc := ⟨[], [], []⟩

/-! ## C1: selection reveal suppresses decoration -/

/-- Claim C1: if any active selection intersects the match's character
range — exact match bounds when the caret style is line-shaped, the start
bound widened left by one character for block/underline-shaped carets —
then the selection loop decides `false` and `processMatch` leaves the
accumulated per-key ranges untouched, so the match is not decorated,
regardless of any scope filter. -/
theorem claim_C1_reveal_not_decorated (cursorStyle : String)
    (lt : Nat → Option (List Token)) (posAt : Nat → Nat × Nat)
    (sels : List (Nat × Nat)) (pattern : Pattern) (mask : Mask)
    (acc : MatchAcc) (m : RegexMatch)
    (h : ∃ sel, sel ∈ sels ∧
      revealsMatch cursorStyle (normSel sel).1 (normSel sel).2 m.index m.matched.length = true) :
    decideLoop cursorStyle lt (posAt m.index).1 (posAt m.index).2 m.index m.matched.length
        mask.scope ((getMatchReplace mask m.matched).bind fun e => e.scope) false sels = false
    ∧ processMatch cursorStyle lt posAt sels pattern mask acc m = acc := by
  have hd := decideLoop_reveal_false cursorStyle lt (posAt m.index).1 (posAt m.index).2
    m.index m.matched.length mask.scope
    ((getMatchReplace mask m.matched).bind fun e => e.scope) sels false h
  refine ⟨hd, ?_⟩
  rw [processMatch]
  simp only [hd, Bool.false_eq_true, if_false]

/-- Witness for C1 at a concrete input: a caret at offset 0 on a match at
offsets `[0,1)` with a line caret. -/
theorem claim_C1_witness :
    decideLoop "line" noTokens (posId 0).1 (posId 0).2 0 "x".length maskPlain.scope
        ((getMatchReplace maskPlain "x").bind fun e => e.scope) false [(0, 0)] = false
    ∧ processMatch "line" noTokens posId [(0, 0)] patX maskPlain accEmpty ⟨0, "x"⟩ = accEmpty :=
  claim_C1_reveal_not_decorated "line" noTokens posId [(0, 0)] patX maskPlain accEmpty
    ⟨0, "x"⟩ (by decide)

/-! ## C2: scope filters gate decoration at a dot boundary -/

/-- Claim C2: under a scope filter (the per-match override's when truthy,
else the uniform mask's), a match is decorated only if token data was
available for its line and the token containing the match's start
character carries a scope string within the filter; moreover the filter
matches `keyword.operator.comparison` but not `keyword.operatorx` for
filter `keyword.operator` (dot-boundary, not raw-text-prefix, matching).
With no token data, nothing is decorated under a filter. -/
theorem claim_C2_scope_filter (cursorStyle : String) (lt : Nat → Option (List Token))
    (line ch mIndex mLen : Nat) (maskScope mrScope : Option String)
    (sels : List (Nat × Nat))
    (hf : jsTruthy maskScope = true ∨ jsTruthy mrScope = true)
    (hd : decideLoop cursorStyle lt line ch mIndex mLen maskScope mrScope false sels = true) :
    (∃ toks, lt line = some toks ∧
      ∃ t, t ∈ toks ∧ (t.startIndex ≤ ch ∧ ch < t.endIndex) ∧
        ∃ s, s ∈ t.scopes ∧ scopeWithin (effectiveScopeFilter maskScope mrScope) s = true)
    ∧ scopeWithin "keyword.operator" "keyword.operator.comparison" = true
    ∧ scopeWithin "keyword.operator" "keyword.operatorx" = false := by
  have hE : scopeEval lt line ch maskScope mrScope = true := by
    rcases decideLoop_true_scopeEval cursorStyle lt line ch mIndex mLen maskScope mrScope
      sels false hd with h | h
    · cases h
    · exact h
  exact ⟨scopeEval_true_filter lt line ch maskScope mrScope hf hE, by decide, by decide⟩

/-- Witness for C2: a decorated match at character 0 on a line whose token
carries `keyword.operator.comparison`, filter `keyword.operator`. -/
theorem claim_C2_witness :
    (∃ toks, kwTokens 0 = some toks ∧
      ∃ t, t ∈ toks ∧ (t.startIndex ≤ 0 ∧ 0 < t.endIndex) ∧
        ∃ s, s ∈ t.scopes ∧
          scopeWithin (effectiveScopeFilter (some "keyword.operator") none) s = true)
    ∧ scopeWithin "keyword.operator" "keyword.operator.comparison" = true
    ∧ scopeWithin "keyword.operator" "keyword.operatorx" = false :=
  claim_C2_scope_filter "line" kwTokens 0 0 0 2 (some "keyword.operator") none [(9, 9)]
    (Or.inl (by decide)) (by decide)

/-! ## C10: a keyed-map hit without its own scope still obeys the uniform scope -/

/-- Claim C10: when the uniform mask carries a scope filter and the match's
keyed-map entry specifies no (truthy) scope of its own, the match is
decorated only if the token at its start character is within the uniform
scope: the keyed hit does not bypass the uniform scope check. -/
theorem claim_C10_uniform_scope_applies (cursorStyle : String)
    (lt : Nat → Option (List Token)) (line ch mIndex mLen : Nat)
    (sels : List (Nat × Nat)) (mask : Mask) (matched : String) (e : MatchReplaceValue)
    (hS : jsTruthy mask.scope = true)
    (he : getMatchReplace mask matched = some e)
    (heS : jsTruthy e.scope = false)
    (hd : decideLoop cursorStyle lt line ch mIndex mLen mask.scope
        ((getMatchReplace mask matched).bind fun x => x.scope) false sels = true) :
    ∃ toks, lt line = some toks ∧
      ∃ t, t ∈ toks ∧ (t.startIndex ≤ ch ∧ ch < t.endIndex) ∧
        ∃ s, s ∈ t.scopes ∧ scopeWithin (optStr mask.scope) s = true := by
  have hbind : (getMatchReplace mask matched).bind (fun x => x.scope) = e.scope := by
    rw [he]; rfl
  rw [hbind] at hd
  have hE : scopeEval lt line ch mask.scope e.scope = true := by
    rcases decideLoop_true_scopeEval cursorStyle lt line ch mIndex mLen mask.scope e.scope
      sels false hd with h | h
    · cases h
    · exact h
  have hex := scopeEval_true_filter lt line ch mask.scope e.scope (Or.inl hS) hE
  simp only [effectiveScopeFilter, heS, Bool.false_eq_true, if_false] at hex
  exact hex

/-- A keyed-map entry for `a` with replacement text `α` and no scope. -/
def mrAlpha : MatchReplaceValue := ⟨none, "α", none, none, none, none, none, none, none, none⟩

/-- A mask with uniform scope `keyword.operator` and a keyed map for `a`. -/
def maskKw : Mask := ⟨some (MaskText.byMatch [("a", mrAlpha)]), some "keyword.operator",
  none, none, none, none, none, none, none, none⟩

/-- Witness for C10: a decorated keyed-map match under the uniform scope. -/
theorem claim_C10_witness :
    ∃ toks, kwTokens 0 = some toks ∧
      ∃ t, t ∈ toks ∧ (t.startIndex ≤ 0 ∧ 0 < t.endIndex) ∧
        ∃ s, s ∈ t.scopes ∧ scopeWithin (optStr maskKw.scope) s = true :=
  claim_C10_uniform_scope_applies "line" kwTokens 0 0 0 1 [(9, 9)] maskKw "a" mrAlpha
    (by decide) (by decide) (by decide) (by decide)

/-! ## C8: the per-selection loop versus the collapsed rule -/

/-- Counterexample to C8 as stated: for an *empty* selection list the
per-selection loop decides `false` (nothing ever sets the flag) while the
specification's collapsed rule decides `true` (no selection reveals the
match and no filter is present), so the two formulations are not identical
for every selection list. -/
theorem claim_C8_counterexample :
    decideLoop "line" noTokens 0 0 0 1 none none false [] = false
    ∧ collapsedRule "line" noTokens 0 0 0 1 none none [] = true := by
  exact ⟨rfl, by decide⟩

/-- Claim C8 (amended): for every *nonempty* selection list, the
short-circuiting per-selection loop and the collapsed rule `decorate iff
no selection reveals the match and the scope check passes` agree. -/
theorem claim_C8_amended_equivalence (cursorStyle : String) (lt : Nat → Option (List Token))
    (line ch mIndex mLen : Nat) (maskScope mrScope : Option String)
    (sels : List (Nat × Nat)) (hne : sels ≠ []) :
    decideLoop cursorStyle lt line ch mIndex mLen maskScope mrScope false sels =
      collapsedRule cursorStyle lt line ch mIndex mLen maskScope mrScope sels := by
  by_cases hrev : ∃ sel, sel ∈ sels ∧
      revealsMatch cursorStyle (normSel sel).1 (normSel sel).2 mIndex mLen = true
  · rw [decideLoop_reveal_false cursorStyle lt line ch mIndex mLen maskScope mrScope
      sels false hrev]
    rcases hrev with ⟨sel, hm, hp⟩
    have hany : (sels.any fun sel =>
        revealsMatch cursorStyle (normSel sel).1 (normSel sel).2 mIndex mLen) = true :=
      List.any_eq_true.mpr ⟨sel, hm, hp⟩
    rw [collapsedRule, hany]
    rfl
  · have hall : ∀ sel ∈ sels,
        revealsMatch cursorStyle (normSel sel).1 (normSel sel).2 mIndex mLen = false := by
      intro sel hm
      rcases Bool.eq_false_or_eq_true
        (revealsMatch cursorStyle (normSel sel).1 (normSel sel).2 mIndex mLen) with h | h
      · exact absurd ⟨sel, hm, h⟩ hrev
      · exact h
    rw [decideLoop_no_reveal cursorStyle lt line ch mIndex mLen maskScope mrScope
      sels false hall hne]
    have hany : (sels.any fun sel =>
        revealsMatch cursorStyle (normSel sel).1 (normSel sel).2 mIndex mLen) = false := by
      rcases Bool.eq_false_or_eq_true (sels.any fun sel =>
          revealsMatch cursorStyle (normSel sel).1 (normSel sel).2 mIndex mLen) with h | h
      · rcases List.any_eq_true.mp h with ⟨sel, hm, hp⟩
        exact absurd ⟨sel, hm, hp⟩ hrev
      · exact h
    rw [collapsedRule, hany]
    simp

/-- Witness for the amended C8 on a concrete nonempty selection list. -/
theorem claim_C8_amended_witness :
    decideLoop "line" noTokens 0 0 0 1 none none false [(5, 5)] =
      collapsedRule "line" noTokens 0 0 0 1 none none [(5, 5)] :=
  claim_C8_amended_equivalence "line" noTokens 0 0 0 1 none none [(5, 5)] (by decide)

/-! ## C6: the match scan terminates, stopping at zero-length matches -/

/-- Unfolding of `scanAux` with no fuel. -/
theorem scanAux_zero (exec : Nat → Option RegexMatch) (pos : Nat) :
    scanAux exec 0 pos = [] := rfl

/-- Unfolding of `scanAux` with fuel available. -/
theorem scanAux_succ (exec : Nat → Option RegexMatch) (fuel pos : Nat) :
    scanAux exec (fuel + 1) pos =
      match exec pos with
      | none => []
      | some m =>
          if m.matched.length = 0 then []
          else m :: scanAux exec fuel (m.index + m.matched.length) := rfl

/-- For a position-respecting `exec` (matches start at or after the query
position and end within the text), any two fuels of at least
`textLen + 1 - pos` produce the same scan from `pos`. -/
theorem scanAux_fuel_irrelevant (exec : Nat → Option RegexMatch) (textLen : Nat)
    (hwf : ∀ pos m, exec pos = some m →
      pos ≤ m.index ∧ m.index + m.matched.length ≤ textLen) :
    ∀ (f1 f2 pos : Nat), textLen + 1 - pos ≤ f1 → textLen + 1 - pos ≤ f2 →
      scanAux exec f1 pos = scanAux exec f2 pos := by
  intro f1
  induction f1 with
  | zero =>
    intro f2 pos h1 _
    have hnone : exec pos = none := by
      cases hx : exec pos with
      | none => rfl
      | some m =>
        have := hwf pos m hx
        omega
    cases f2 with
    | zero => rfl
    | succ f2' => rw [scanAux_zero, scanAux_succ, hnone]
  | succ f1' ih =>
    intro f2 pos h1 h2
    cases f2 with
    | zero =>
      have hnone : exec pos = none := by
        cases hx : exec pos with
        | none => rfl
        | some m =>
          have := hwf pos m hx
          omega
      rw [scanAux_zero, scanAux_succ, hnone]
    | succ f2' =>
      rw [scanAux_succ, scanAux_succ]
      cases hx : exec pos with
      | none => rfl
      | some m =>
        by_cases hz : m.matched.length = 0
        · simp [hz]
        · have hb := hwf pos m hx
          show (if m.matched.length = 0 then []
              else m :: scanAux exec f1' (m.index + m.matched.length)) =
            (if m.matched.length = 0 then []
              else m :: scanAux exec f2' (m.index + m.matched.length))
          rw [if_neg hz, if_neg hz,
            ih f2' (m.index + m.matched.length) (by omega) (by omega)]

/-- Claim C6: the match scan of `apply` terminates: for a
position-respecting regex `exec`, fuel `textLen + 1` (the fuel
`applyMatches` uses) already computes the scan's fixpoint — more fuel
changes nothing — and the scan stops immediately at the first zero-length
match it encounters, yielding no further matches. -/
theorem claim_C6_scan_terminates (pattern : Pattern) (ed : EditorState)
    (hwf : ∀ pos m, pattern.exec pos = some m →
      pos ≤ m.index ∧ m.index + m.matched.length ≤ ed.docText.length) :
    (∀ fuel, ed.docText.length + 1 ≤ fuel →
      scanAux pattern.exec fuel 0 = applyMatches pattern ed)
    ∧ (∀ fuel pos m, pattern.exec pos = some m → m.matched.length = 0 →
      scanAux pattern.exec (fuel + 1) pos = []) := by
  constructor
  · intro fuel hf
    rw [applyMatches]
    exact scanAux_fuel_irrelevant pattern.exec ed.docText.length hwf fuel
      (ed.docText.length + 1) 0 (by omega) (by omega)
  · intro fuel pos m hx hz
    rw [scanAux_succ, hx]
    simp [hz]

/-- A pattern whose `exec` yields a zero-length match at every position of
a two-character text. -/
def patEps : Pattern := ⟨"a*", fun pos => if pos ≤ 2 then some ⟨pos, ""⟩ else none⟩

/-- A two-character editor with no selections. -/
def edHH : EditorState := ⟨"hh", posId, [], fun _ => []⟩

/-- Witness for C6: on the zero-length-matching pattern, extra fuel is
irrelevant and the scan halts at once. -/
theorem claim_C6_witness :
    scanAux patEps.exec 7 0 = applyMatches patEps edHH
    ∧ scanAux patEps.exec 1 0 = [] := by
  have hwf : ∀ pos m, patEps.exec pos = some m →
      pos ≤ m.index ∧ m.index + m.matched.length ≤ edHH.docText.length := by
    intro pos m hx
    by_cases hp : pos ≤ 2
    · rw [show patEps.exec pos = some ⟨pos, ""⟩ from if_pos hp] at hx
      cases hx
      constructor
      · exact Nat.le_refl pos
      · show pos + "".length ≤ "hh".length
        have h0 : "".length = 0 := rfl
        have h2 : "hh".length = 2 := rfl
        omega
    · rw [show patEps.exec pos = none from if_neg hp] at hx
      cases hx
  exact ⟨(claim_C6_scan_terminates patEps edHH hwf).1 7 (by decide),
         (claim_C6_scan_terminates patEps edHH hwf).2 0 0 ⟨0, ""⟩ (by decide) (by decide)⟩

/-! ## C5: tokenize clears, then chains states line to line -/

/-- `setState` on a map whose keys all differ from `i` appends. -/
theorem setState_append {σ : Type} (m : List (Nat × σ)) (i : Nat) (v : σ)
    (h : ∀ e ∈ m, e.1 ≠ i) : setState m i v = m ++ [(i, v)] := by
  induction m with
  | nil => rfl
  | cons e rest ih =>
    have hne : e.1 ≠ i := h e (List.mem_cons_self e rest)
    show (if e.1 = i then (i, v) :: rest else e :: setState rest i v) = e :: rest ++ [(i, v)]
    rw [if_neg hne, ih fun x hx => h x (List.mem_cons_of_mem e hx)]
    rfl

/-- Looking the appended key up finds the appended value when no earlier
entry has that key. -/
theorem lookupState_append_right {σ : Type} (m : List (Nat × σ)) (i : Nat) (v : σ)
    (h : ∀ e ∈ m, e.1 ≠ i) : lookupState (m ++ [(i, v)]) i = some v := by
  induction m with
  | nil => simp [lookupState]
  | cons e rest ih =>
    have hne : e.1 ≠ i := h e (List.mem_cons_self e rest)
    show (if e.1 = i then some e.2 else lookupState (rest ++ [(i, v)]) i) = some v
    rw [if_neg hne, ih fun x hx => h x (List.mem_cons_of_mem e hx)]

/-- The map-threaded tokenize loop computes exactly the directly-threaded
chain of line end-states, appended to the incoming map, provided all
stored keys are below the current line and the stored predecessor state
agrees with the threaded one. -/
theorem tokenizeGo_eq_chain {σ : Type} (g : String → Option σ → List Token × σ) :
    ∀ (rest : List String) (i : Nat) (m : List (Nat × σ)) (p : Option σ),
      (∀ e ∈ m, e.1 < i) →
      (if i = 0 then none else lookupState m (i - 1)) = p →
      tokenizeGo g rest i m = m ++ chainStates g rest i p := by
  intro rest
  induction rest with
  | nil =>
    intro i m p _ _
    show m = m ++ chainStates g [] i p
    rw [show chainStates g [] i p = [] from rfl, List.append_nil]
  | cons l rest' ih =>
    intro i m p hkeys hprev
    show tokenizeGo g rest' (i + 1)
        (setState m i (g l (if i = 0 then none else lookupState m (i - 1))).2) =
      m ++ chainStates g (l :: rest') i p
    rw [hprev]
    have hne : ∀ e ∈ m, e.1 ≠ i := fun e he => Nat.ne_of_lt (hkeys e he)
    rw [setState_append m i (g l p).2 hne]
    have hkeys' : ∀ e ∈ m ++ [(i, (g l p).2)], e.1 < i + 1 := by
      intro e he
      rcases List.mem_append.mp he with h1 | h1
      · exact Nat.lt_succ_of_lt (hkeys e h1)
      · rcases List.mem_singleton.mp h1 with rfl
        exact Nat.lt_succ_self i
    have hprev' : (if i + 1 = 0 then none
        else lookupState (m ++ [(i, (g l p).2)]) (i + 1 - 1)) = some (g l p).2 := by
      rw [if_neg (Nat.succ_ne_zero i), Nat.add_sub_cancel]
      exact lookupState_append_right m i (g l p).2 hne
    rw [ih (i + 1) (m ++ [(i, (g l p).2)]) (some (g l p).2) hkeys' hprev']
    show m ++ [(i, (g l p).2)] ++ chainStates g rest' (i + 1) (some (g l p).2) =
      m ++ ((i, (g l p).2) :: chainStates g rest' (i + 1) (some (g l p).2))
    rw [List.append_assoc]
    rfl

/-- On a document and grammar both present, `tokenize` rebuilds the state
map as the directly-threaded chain. -/
theorem tokenize_some {σ : Type} (lines : List String)
    (g : String → Option σ → List Token × σ) (st : List (Nat × σ)) :
    (ScopedDoc.tokenize (⟨some lines, some g, st⟩ : ScopedDoc σ)).grammarState =
      chainStates g lines 0 none := by
  show tokenizeGo g lines 0 [] = chainStates g lines 0 none
  rw [tokenizeGo_eq_chain g lines 0 [] none (by intro e he; cases he) (by rw [if_pos rfl])]
  rfl

/-- Claim C5: every `tokenize()` call first clears the stored
continuation-state map (its result is independent of the prior map); when
and only when a document and a grammar are both present it stores, for
every line in increasing order, the end-state obtained by tokenizing that
line with the freshly stored end-state of the previous line (`none` for
line 0) — equal to the directly-threaded chain `chainStates`; otherwise
the state map is left empty. -/
theorem claim_C5_tokenize_chains {σ : Type} (sd : ScopedDoc σ) :
    (ScopedDoc.tokenize sd = ScopedDoc.tokenize { sd with grammarState := [] })
    ∧ ((sd.document.isNone ∨ sd.grammar.isNone) →
        (ScopedDoc.tokenize sd).grammarState = [])
    ∧ (∀ lines g, sd.document = some lines → sd.grammar = some g →
        (ScopedDoc.tokenize sd).grammarState = chainStates g lines 0 none) := by
  obtain ⟨doc, gr, st⟩ := sd
  refine ⟨?_, ?_, ?_⟩
  · cases doc <;> cases gr <;> rfl
  · intro h
    cases doc with
    | none => cases gr <;> rfl
    | some lines0 =>
      cases gr with
      | none => rfl
      | some g0 => simp at h
  · intro lines g hdoc hgr
    cases doc with
    | none => cases hdoc
    | some lines0 =>
      cases gr with
      | none => cases hgr
      | some g0 =>
        cases Option.some.inj hdoc
        cases Option.some.inj hgr
        exact tokenize_some _ _ _

/-- A concrete grammar over `Nat` states: the end state adds the line
length to the incoming state. -/
def gLen : String → Option Nat → List Token × Nat :=
  fun l p => ([], p.getD 0 + l.length)

/-- A concrete two-line scoped document carrying a stale state map. -/
def sdTwo : ScopedDoc Nat := ⟨some ["ab", "c"], some gLen, [(9, 9)]⟩

/-- Witness for C5: the stale map is discarded and the rebuilt map equals
the directly-threaded chain. -/
theorem claim_C5_witness :
    ScopedDoc.tokenize sdTwo = ScopedDoc.tokenize { sdTwo with grammarState := [] }
    ∧ (ScopedDoc.tokenize sdTwo).grammarState = chainStates gLen ["ab", "c"] 0 none :=
  ⟨(claim_C5_tokenize_chains sdTwo).1,
   (claim_C5_tokenize_chains sdTwo).2.2 ["ab", "c"] gLen rfl rfl⟩

/-! ## Branch equations for one match-loop step -/

/-- `processMatch` on a match the loop decided not to decorate. -/
theorem processMatch_not_decorated (cursorStyle : String) (lt : Nat → Option (List Token))
    (posAt : Nat → Nat × Nat) (sels : List (Nat × Nat)) (pattern : Pattern) (mask : Mask)
    (acc : MatchAcc) (m : RegexMatch)
    (hd : decideLoop cursorStyle lt (posAt m.index).1 (posAt m.index).2 m.index
      m.matched.length mask.scope ((getMatchReplace mask m.matched).bind fun e => e.scope)
      false sels = false) :
    processMatch cursorStyle lt posAt sels pattern mask acc m = acc := by
  simp [processMatch, hd]

/-- `processMatch` on a decorated match with no keyed-map hit: push under
the base key with the mask's hover. -/
theorem processMatch_no_replace (cursorStyle : String) (lt : Nat → Option (List Token))
    (posAt : Nat → Nat × Nat) (sels : List (Nat × Nat)) (pattern : Pattern) (mask : Mask)
    (acc : MatchAcc) (m : RegexMatch)
    (hd : decideLoop cursorStyle lt (posAt m.index).1 (posAt m.index).2 m.index
      m.matched.length mask.scope ((getMatchReplace mask m.matched).bind fun e => e.scope)
      false sels = true)
    (he : getMatchReplace mask m.matched = none) :
    processMatch cursorStyle lt posAt sels pattern mask acc m =
      { acc with options := (optPush acc.options pattern.source
        ⟨posAt m.index, posAt (m.index + m.matched.length), mask.hover⟩) } := by
  have hd' : decideLoop cursorStyle lt (posAt m.index).1 (posAt m.index).2 m.index
      m.matched.length mask.scope none false sels = true := by
    rw [he] at hd; exact hd
  simp [processMatch, he, hd']

/-- `processMatch` on a decorated keyed-map hit whose entry text is empty
(falsy): the base key and the mask's hover are used. -/
theorem processMatch_empty_text (cursorStyle : String) (lt : Nat → Option (List Token))
    (posAt : Nat → Nat × Nat) (sels : List (Nat × Nat)) (pattern : Pattern) (mask : Mask)
    (acc : MatchAcc) (m : RegexMatch) (e : MatchReplaceValue)
    (hd : decideLoop cursorStyle lt (posAt m.index).1 (posAt m.index).2 m.index
      m.matched.length mask.scope ((getMatchReplace mask m.matched).bind fun e => e.scope)
      false sels = true)
    (he : getMatchReplace mask m.matched = some e) (ht : e.text = "") :
    processMatch cursorStyle lt posAt sels pattern mask acc m =
      { acc with options := (optPush acc.options pattern.source
        ⟨posAt m.index, posAt (m.index + m.matched.length), mask.hover⟩) } := by
  have hd' : decideLoop cursorStyle lt (posAt m.index).1 (posAt m.index).2 m.index
      m.matched.length mask.scope e.scope false sels = true := by
    rw [he] at hd; exact hd
  simp [processMatch, he, hd', ht]

/-- `processMatch` on a decorated keyed-map hit with truthy text whose
derived key was already seen this call. -/
theorem processMatch_derived_seen (cursorStyle : String) (lt : Nat → Option (List Token))
    (posAt : Nat → Nat × Nat) (sels : List (Nat × Nat)) (pattern : Pattern) (mask : Mask)
    (acc : MatchAcc) (m : RegexMatch) (e : MatchReplaceValue)
    (hd : decideLoop cursorStyle lt (posAt m.index).1 (posAt m.index).2 m.index
      m.matched.length mask.scope ((getMatchReplace mask m.matched).bind fun e => e.scope)
      false sels = true)
    (he : getMatchReplace mask m.matched = some e) (ht : e.text ≠ "")
    (hm : memKey acc.mrKeys (pattern.source ++ "@@@" ++ e.text) = true) :
    processMatch cursorStyle lt posAt sels pattern mask acc m =
      { acc with options := (optPush acc.options (pattern.source ++ "@@@" ++ e.text)
        ⟨posAt m.index, posAt (m.index + m.matched.length), e.hover⟩) } := by
  have hd' : decideLoop cursorStyle lt (posAt m.index).1 (posAt m.index).2 m.index
      m.matched.length mask.scope e.scope false sels = true := by
    rw [he] at hd; exact hd
  simp [processMatch, he, hd', ht, hm]

/-- `processMatch` on a decorated keyed-map hit with truthy text whose
derived key is new: record the key and initialize its resource. -/
theorem processMatch_derived_new (cursorStyle : String) (lt : Nat → Option (List Token))
    (posAt : Nat → Nat × Nat) (sels : List (Nat × Nat)) (pattern : Pattern) (mask : Mask)
    (acc : MatchAcc) (m : RegexMatch) (e : MatchReplaceValue)
    (hd : decideLoop cursorStyle lt (posAt m.index).1 (posAt m.index).2 m.index
      m.matched.length mask.scope ((getMatchReplace mask m.matched).bind fun e => e.scope)
      false sels = true)
    (he : getMatchReplace mask m.matched = some e) (ht : e.text ≠ "")
    (hm : memKey acc.mrKeys (pattern.source ++ "@@@" ++ e.text) = false) :
    processMatch cursorStyle lt posAt sels pattern mask acc m =
      ⟨optPush acc.options (pattern.source ++ "@@@" ++ e.text)
          ⟨posAt m.index, posAt (m.index + m.matched.length), e.hover⟩,
        acc.mrKeys ++ [pattern.source ++ "@@@" ++ e.text],
        initDecoration acc.dmap (pattern.source ++ "@@@" ++ e.text) (derivedMask e)⟩ := by
  have hd' : decideLoop cursorStyle lt (posAt m.index).1 (posAt m.index).2 m.index
      m.matched.length mask.scope e.scope false sels = true := by
    rw [he] at hd; exact hd
  simp [processMatch, he, hd', ht, hm]

/-! ## Small association-list lemmas -/

/-- `hasKey` over an appended singleton. -/
theorem hasKey_append {α : Type} (d : List (String × α)) (i : String) (v : α) (k : String) :
    hasKey (d ++ [(i, v)]) k = (hasKey d k || decide (i = k)) := by
  induction d with
  | nil =>
    show (if i = k then true else hasKey [] k) = (false || decide (i = k))
    by_cases h : i = k
    · rw [if_pos h]; simp [h]
    · rw [if_neg h]; simp [h, hasKey]
  | cons e rest ih =>
    show (if e.1 = k then true else hasKey (rest ++ [(i, v)]) k) =
      ((if e.1 = k then true else hasKey rest k) || decide (i = k))
    by_cases h : e.1 = k
    · rw [if_pos h, if_pos h]; rfl
    · rw [if_neg h, if_neg h, ih]

/-- `hasKey` after `initDecoration`. -/
theorem initDecoration_hasKey (d : List (String × Mask)) (i : String) (mk0 : Mask) (k : String) :
    hasKey (initDecoration d i mk0) k = (hasKey d k || decide (i = k)) := by
  rw [initDecoration]
  by_cases hi : hasKey d i = true
  · rw [if_pos hi]
    by_cases hik : i = k
    · subst hik; rw [hi]; simp
    · simp [hik]
  · rw [if_neg hi, hasKey_append]

/-- `memKey` over an appended singleton. -/
theorem memKey_append (ks : List String) (k0 x : String) :
    memKey (ks ++ [k0]) x = (memKey ks x || decide (k0 = x)) := by
  induction ks with
  | nil =>
    show (if k0 = x then true else memKey [] x) = (false || decide (k0 = x))
    by_cases h : k0 = x
    · rw [if_pos h]; simp [h]
    · rw [if_neg h]; simp [h, memKey]
  | cons y rest ih =>
    show (if y = x then true else memKey (rest ++ [k0]) x) =
      ((if y = x then true else memKey rest x) || decide (k0 = x))
    by_cases h : y = x
    · rw [if_pos h, if_pos h]; rfl
    · rw [if_neg h, if_neg h, ih]

/-- `hasKey` through a key-predicate `filter`. -/
theorem hasKey_filter {α : Type} (d : List (String × α)) (q : String → Bool) (k : String) :
    hasKey (d.filter fun e => q e.1) k = (q k && hasKey d k) := by
  induction d with
  | nil => simp [hasKey]
  | cons e rest ih =>
    by_cases hq : q e.1 = true
    · have hf : List.filter (fun e => q e.1) (e :: rest) =
          e :: List.filter (fun e => q e.1) rest := by
        simp [List.filter, hq]
      rw [hf]
      show (if e.1 = k then true else hasKey (rest.filter fun e => q e.1) k) =
        (q k && (if e.1 = k then true else hasKey rest k))
      by_cases h : e.1 = k
      · rw [if_pos h, if_pos h, ← h, hq]; rfl
      · rw [if_neg h, if_neg h, ih]
    · have hf : List.filter (fun e => q e.1) (e :: rest) =
          List.filter (fun e => q e.1) rest := by
        simp [List.filter, hq]
      rw [hf]
      show hasKey (rest.filter fun e => q e.1) k = (q k && (if e.1 = k then true else hasKey rest k))
      by_cases h : e.1 = k
      · rw [if_pos h, ih, ← h]
        have hq' : q e.1 = false := Bool.eq_false_iff.mpr hq
        rw [hq']
        simp
      · rw [if_neg h, ih]

/-- The outer `has` check of `apply` composed with `initialize` is just
`initDecoration`. -/
theorem initIf_eq (d : List (String × Mask)) (src : String) (mask : Mask) :
    (if hasKey d src then d else initDecoration d src mask) = initDecoration d src mask := by
  by_cases h : hasKey d src = true
  · rw [if_pos h, initDecoration, if_pos h]
  · rw [if_neg h]

/-- A key present in the map yields a witness entry for `List.any` with
any key-predicate true at that key. -/
theorem any_of_hasKey {α : Type} (d : List (String × α)) (k : String) (q : String → Bool)
    (h : hasKey d k = true) (hq : q k = true) :
    (d.any fun e => decide (e.1 = k) && q e.1) = true := by
  induction d with
  | nil => cases h
  | cons e rest ih =>
    by_cases hek : e.1 = k
    · refine List.any_eq_true.mpr ⟨e, List.mem_cons_self e rest, ?_⟩
      rw [hek, hq]
      simp
    · have h' : hasKey rest k = true := by
        have := h
        rw [show hasKey (e :: rest) k = (if e.1 = k then true else hasKey rest k) from rfl,
          if_neg hek] at this
        exact this
      rcases List.any_eq_true.mp (ih h') with ⟨x, hx, hpx⟩
      exact List.any_eq_true.mpr ⟨x, List.mem_cons_of_mem e hx, hpx⟩

/-! ## Shape of one match-loop step and fold-level invariants -/

/-- One `processMatch` step either keeps `mrKeys` and the cache unchanged,
or appends one new derived key and initializes its resource. -/
theorem processMatch_shape (cursorStyle : String) (lt : Nat → Option (List Token))
    (posAt : Nat → Nat × Nat) (sels : List (Nat × Nat)) (pattern : Pattern) (mask : Mask)
    (acc : MatchAcc) (m : RegexMatch) :
    ((processMatch cursorStyle lt posAt sels pattern mask acc m).mrKeys = acc.mrKeys ∧
      (processMatch cursorStyle lt posAt sels pattern mask acc m).dmap = acc.dmap)
    ∨ (∃ k, memKey acc.mrKeys k = false ∧
        (processMatch cursorStyle lt posAt sels pattern mask acc m).mrKeys = acc.mrKeys ++ [k] ∧
        ∃ dm, (processMatch cursorStyle lt posAt sels pattern mask acc m).dmap =
          initDecoration acc.dmap k dm) := by
  cases hdec : decideLoop cursorStyle lt (posAt m.index).1 (posAt m.index).2 m.index
      m.matched.length mask.scope ((getMatchReplace mask m.matched).bind fun e => e.scope)
      false sels with
  | false =>
    rw [processMatch_not_decorated _ _ _ _ _ _ _ _ hdec]
    exact Or.inl ⟨rfl, rfl⟩
  | true =>
    cases he : getMatchReplace mask m.matched with
    | none =>
      rw [processMatch_no_replace _ _ _ _ _ _ _ _ hdec he]
      exact Or.inl ⟨rfl, rfl⟩
    | some e =>
      by_cases ht : e.text = ""
      · rw [processMatch_empty_text _ _ _ _ _ _ _ _ _ hdec he ht]
        exact Or.inl ⟨rfl, rfl⟩
      · cases hm : memKey acc.mrKeys (pattern.source ++ "@@@" ++ e.text) with
        | true =>
          rw [processMatch_derived_seen _ _ _ _ _ _ _ _ _ hdec he ht hm]
          exact Or.inl ⟨rfl, rfl⟩
        | false =>
          rw [processMatch_derived_new _ _ _ _ _ _ _ _ _ hdec he ht hm]
          exact Or.inr ⟨pattern.source ++ "@@@" ++ e.text, hm, rfl, derivedMask e, rfl⟩

/-- The step's per-key range output and derived-key list do not depend on
the cache component of the accumulator. -/
theorem processMatch_dmap_indep (cursorStyle : String) (lt : Nat → Option (List Token))
    (posAt : Nat → Nat × Nat) (sels : List (Nat × Nat)) (pattern : Pattern) (mask : Mask)
    (o : List (String × List DecorationOpts)) (ks : List String)
    (d d' : List (String × Mask)) (m : RegexMatch) :
    (processMatch cursorStyle lt posAt sels pattern mask ⟨o, ks, d⟩ m).options =
      (processMatch cursorStyle lt posAt sels pattern mask ⟨o, ks, d'⟩ m).options
    ∧ (processMatch cursorStyle lt posAt sels pattern mask ⟨o, ks, d⟩ m).mrKeys =
      (processMatch cursorStyle lt posAt sels pattern mask ⟨o, ks, d'⟩ m).mrKeys := by
  cases hdec : decideLoop cursorStyle lt (posAt m.index).1 (posAt m.index).2 m.index
      m.matched.length mask.scope ((getMatchReplace mask m.matched).bind fun e => e.scope)
      false sels with
  | false =>
    rw [processMatch_not_decorated _ _ _ _ _ _ _ _ hdec,
        processMatch_not_decorated _ _ _ _ _ _ _ _ hdec]
    exact ⟨rfl, rfl⟩
  | true =>
    cases he : getMatchReplace mask m.matched with
    | none =>
      rw [processMatch_no_replace _ _ _ _ _ _ _ _ hdec he,
          processMatch_no_replace _ _ _ _ _ _ _ _ hdec he]
      exact ⟨rfl, rfl⟩
    | some e =>
      by_cases ht : e.text = ""
      · rw [processMatch_empty_text _ _ _ _ _ _ _ _ _ hdec he ht,
            processMatch_empty_text _ _ _ _ _ _ _ _ _ hdec he ht]
        exact ⟨rfl, rfl⟩
      · cases hm : memKey ks (pattern.source ++ "@@@" ++ e.text) with
        | true =>
          rw [processMatch_derived_seen _ _ _ _ _ _ _ _ _ hdec he ht hm,
              processMatch_derived_seen _ _ _ _ _ _ _ _ _ hdec he ht hm]
          exact ⟨rfl, rfl⟩
        | false =>
          rw [processMatch_derived_new _ _ _ _ _ _ _ _ _ hdec he ht hm,
              processMatch_derived_new _ _ _ _ _ _ _ _ _ hdec he ht hm]
          exact ⟨rfl, rfl⟩

/-- Fold version of cache-independence: the accumulated per-key ranges and
derived keys are the same whatever cache the fold starts from. -/
theorem applyFold_dmap_indep (cursorStyle : String) (lt : Nat → Option (List Token))
    (posAt : Nat → Nat × Nat) (sels : List (Nat × Nat)) (pattern : Pattern) (mask : Mask) :
    ∀ (ms : List RegexMatch) (o : List (String × List DecorationOpts)) (ks : List String)
      (d d' : List (String × Mask)),
      (List.foldl (processMatch cursorStyle lt posAt sels pattern mask) ⟨o, ks, d⟩ ms).options =
        (List.foldl (processMatch cursorStyle lt posAt sels pattern mask) ⟨o, ks, d'⟩ ms).options
      ∧ (List.foldl (processMatch cursorStyle lt posAt sels pattern mask) ⟨o, ks, d⟩ ms).mrKeys =
        (List.foldl (processMatch cursorStyle lt posAt sels pattern mask) ⟨o, ks, d'⟩ ms).mrKeys := by
  intro ms
  induction ms with
  | nil => intro o ks d d'; exact ⟨rfl, rfl⟩
  | cons m rest ih =>
    intro o ks d d'
    have h := processMatch_dmap_indep cursorStyle lt posAt sels pattern mask o ks d d' m
    cases hx : processMatch cursorStyle lt posAt sels pattern mask ⟨o, ks, d⟩ m with
    | mk o1 k1 d1 =>
      cases hy : processMatch cursorStyle lt posAt sels pattern mask ⟨o, ks, d'⟩ m with
      | mk o2 k2 d2 =>
        rw [hx, hy] at h
        have ho : o1 = o2 := h.1
        have hk : k1 = k2 := h.2
        subst ho; subst hk
        rw [List.foldl_cons, List.foldl_cons, hx, hy]
        exact ih o1 k1 d1 d2

/-- Fold invariants: the cache keys only grow, derived keys only grow,
every new cache key is a derived key, and if every derived key so far is
cached then every derived key after the fold is cached. -/
theorem applyFold_mono (cursorStyle : String) (lt : Nat → Option (List Token))
    (posAt : Nat → Nat × Nat) (sels : List (Nat × Nat)) (pattern : Pattern) (mask : Mask) :
    ∀ (ms : List RegexMatch) (acc : MatchAcc),
      (∀ x, hasKey acc.dmap x = true →
        hasKey (List.foldl (processMatch cursorStyle lt posAt sels pattern mask) acc ms).dmap x = true)
      ∧ (∀ x, memKey acc.mrKeys x = true →
        memKey (List.foldl (processMatch cursorStyle lt posAt sels pattern mask) acc ms).mrKeys x = true)
      ∧ (∀ x, hasKey (List.foldl (processMatch cursorStyle lt posAt sels pattern mask) acc ms).dmap x = true →
        hasKey acc.dmap x = true ∨
          memKey (List.foldl (processMatch cursorStyle lt posAt sels pattern mask) acc ms).mrKeys x = true)
      ∧ ((∀ x, memKey acc.mrKeys x = true → hasKey acc.dmap x = true) →
        (∀ x, memKey (List.foldl (processMatch cursorStyle lt posAt sels pattern mask) acc ms).mrKeys x = true →
          hasKey (List.foldl (processMatch cursorStyle lt posAt sels pattern mask) acc ms).dmap x = true)) := by
  intro ms
  induction ms with
  | nil =>
    intro acc
    exact ⟨fun x h => h, fun x h => h, fun x h => Or.inl h, fun hinv x h => hinv x h⟩
  | cons m rest ih =>
    intro acc
    have hstep := processMatch_shape cursorStyle lt posAt sels pattern mask acc m
    have ihs := ih (processMatch cursorStyle lt posAt sels pattern mask acc m)
    rw [List.foldl_cons]
    have hdm : ∀ x, hasKey acc.dmap x = true →
        hasKey (processMatch cursorStyle lt posAt sels pattern mask acc m).dmap x = true := by
      intro x hx
      rcases hstep with ⟨_, hd⟩ | ⟨k, _, _, dm, hd⟩
      · rw [hd]; exact hx
      · rw [hd, initDecoration_hasKey, hx]; rfl
    have hkm : ∀ x, memKey acc.mrKeys x = true →
        memKey (processMatch cursorStyle lt posAt sels pattern mask acc m).mrKeys x = true := by
      intro x hx
      rcases hstep with ⟨hk, _⟩ | ⟨k, _, hk, _, _⟩
      · rw [hk]; exact hx
      · rw [hk, memKey_append, hx]; rfl
    refine ⟨?_, ?_, ?_, ?_⟩
    · intro x hx
      exact ihs.1 x (hdm x hx)
    · intro x hx
      exact ihs.2.1 x (hkm x hx)
    · intro x hx
      rcases ihs.2.2.1 x hx with h1 | h1
      · rcases hstep with ⟨_, hd⟩ | ⟨k, _, hk, dm, hd⟩
        · rw [hd] at h1
          exact Or.inl h1
        · rw [hd, initDecoration_hasKey] at h1
          rcases Bool.or_eq_true_iff.mp h1 with h2 | h2
          · exact Or.inl h2
          · refine Or.inr (ihs.2.1 x ?_)
            rw [hk, memKey_append]
            rw [show decide (k = x) = true from h2]
            simp
      · exact Or.inr h1
    · intro hinv
      refine ihs.2.2.2 ?_
      intro x hx
      rcases hstep with ⟨hk, hd⟩ | ⟨k, _, hk, dm, hd⟩
      · rw [hk] at hx
        rw [hd]
        exact hinv x hx
      · rw [hk, memKey_append] at hx
        rw [hd, initDecoration_hasKey]
        rcases Bool.or_eq_true_iff.mp hx with h2 | h2
        · rw [hinv x h2]; rfl
        · rw [h2]
          simp

/-- If every derived key produced by the fold is already cached at the
start, the fold leaves the cache unchanged. -/
theorem applyFold_dmap_fixed (cursorStyle : String) (lt : Nat → Option (List Token))
    (posAt : Nat → Nat × Nat) (sels : List (Nat × Nat)) (pattern : Pattern) (mask : Mask) :
    ∀ (ms : List RegexMatch) (acc : MatchAcc),
      (∀ x, memKey (List.foldl (processMatch cursorStyle lt posAt sels pattern mask) acc ms).mrKeys x = true →
        hasKey acc.dmap x = true) →
      (List.foldl (processMatch cursorStyle lt posAt sels pattern mask) acc ms).dmap = acc.dmap := by
  intro ms
  induction ms with
  | nil => intro acc _; rfl
  | cons m rest ih =>
    intro acc hinv
    rw [List.foldl_cons] at hinv ⊢
    have hstep := processMatch_shape cursorStyle lt posAt sels pattern mask acc m
    rcases hstep with ⟨hk, hd⟩ | ⟨k, hknew, hk, dm, hd⟩
    · rw [ih (processMatch cursorStyle lt posAt sels pattern mask acc m)
        (fun x hx => by rw [hd]; exact hinv x hx), hd]
    · have hmem : memKey (List.foldl (processMatch cursorStyle lt posAt sels pattern mask)
          (processMatch cursorStyle lt posAt sels pattern mask acc m) rest).mrKeys k = true := by
        refine (applyFold_mono cursorStyle lt posAt sels pattern mask rest
          (processMatch cursorStyle lt posAt sels pattern mask acc m)).2.1 k ?_
        rw [hk, memKey_append]
        simp
      have hcached : hasKey acc.dmap k = true := hinv k hmem
      have hd' : (processMatch cursorStyle lt posAt sels pattern mask acc m).dmap = acc.dmap := by
        rw [hd, initDecoration, if_pos hcached]
      rw [ih (processMatch cursorStyle lt posAt sels pattern mask acc m)
        (fun x hx => by rw [hd']; exact hinv x hx), hd']

/-! ## Pointwise evaluation of the commit and eviction passes -/

/-- Evaluating a guarded per-key update fold at a key. -/
theorem foldl_update_eval (c : String → Bool) (f : String → List DecorationOpts) :
    ∀ (ks : List String) (r0 : String → List DecorationOpts) (x : String),
      (ks.foldl (fun r k => if c k then updateRendered r k (f k) else r) r0) x =
        if memKey ks x && c x then f x else r0 x := by
  intro ks
  induction ks with
  | nil => intro r0 x; simp [memKey]
  | cons k rest ih =>
    intro r0 x
    rw [List.foldl_cons, ih]
    show (if memKey rest x && c x then f x
        else (if c k then updateRendered r0 k (f k) else r0) x) =
      if (if k = x then true else memKey rest x) && c x then f x else r0 x
    by_cases hkx : k = x
    · subst hkx
      by_cases hck : c k = true
      · simp [hck, updateRendered]
      · simp [Bool.eq_false_iff.mpr hck]
    · have hxk : ¬ (x = k) := fun h => hkx h.symm
      by_cases hck : c k = true
      · simp [hck, updateRendered, hkx, hxk]
      · simp [Bool.eq_false_iff.mpr hck, hkx]

/-- Evaluating the eviction fold at a key: keys with a cache entry failing
the keep predicate are cleared, others are untouched. -/
theorem foldl_evict_eval (keep : String → Bool) :
    ∀ (es : List (String × Mask)) (r0 : String → List DecorationOpts) (x : String),
      (es.foldl (fun r e => if keep e.1 then r else updateRendered r e.1 []) r0) x =
        if es.any fun e => decide (e.1 = x) && !keep e.1 then [] else r0 x := by
  intro es
  induction es with
  | nil => intro r0 x; simp
  | cons e rest ih =>
    intro r0 x
    rw [List.foldl_cons, ih]
    obtain ⟨ek, ev⟩ := e
    rw [List.any_cons]
    by_cases hex : ek = x
    · subst hex
      by_cases hk : keep ek = true
      · rw [if_pos hk]
        simp only [hk, Bool.not_true, Bool.and_false, Bool.false_or]
      · rw [if_neg hk, show updateRendered r0 ek [] ek = [] from if_pos rfl]
        simp [Bool.eq_false_iff.mpr hk]
    · have hxe : ¬ (x = ek) := fun h => hex h.symm
      by_cases hk : keep ek = true
      · rw [if_pos hk]
        simp only [decide_eq_false hex, Bool.false_and, Bool.false_or]
      · rw [if_neg hk, show updateRendered r0 ek [] x = r0 x from if_neg hxe]
        simp only [decide_eq_false hex, Bool.false_and, Bool.false_or]

/-- Pointwise value of the derived-keys commit. -/
theorem commitDerived_eval (acc : MatchAcc) (r : String → List DecorationOpts) (x : String) :
    commitDerived acc r x =
      if memKey acc.mrKeys x && hasKey acc.dmap x then optGet acc.options x else r x :=
  foldl_update_eval (fun k => hasKey acc.dmap k) (fun k => optGet acc.options k)
    acc.mrKeys r x

/-- Pointwise value of the base-key commit. -/
theorem commitBase_eval (src : String) (acc : MatchAcc) (r : String → List DecorationOpts)
    (x : String) :
    commitBase src acc r x =
      if decide (x = src) && hasKey acc.dmap src then optGet acc.options src else r x := by
  rw [commitBase]
  by_cases h : hasKey acc.dmap src = true
  · rw [if_pos h, h]
    show (if x = src then optGet acc.options src else r x) =
      if decide (x = src) && true then optGet acc.options src else r x
    by_cases hx : x = src
    · simp [hx]
    · simp [hx]
  · rw [if_neg h, Bool.eq_false_iff.mpr h]
    simp

/-- Pointwise value of the eviction pass. -/
theorem evictStale_eval (src : String) (acc : MatchAcc) (r : String → List DecorationOpts)
    (x : String) :
    evictStale src acc r x =
      if acc.dmap.any fun e => decide (e.1 = x) && !keepKey src acc.mrKeys e.1 then []
      else r x :=
  foldl_evict_eval (fun k => keepKey src acc.mrKeys k) acc.dmap r x

/-! ## The unfolded form of `apply` on an editor -/

/-- `apply` on a controller with an editor, written with the passes
spelled out. -/
theorem apply_some (cursorStyle : String) (pattern : Pattern) (mask : Mask)
    (lt0 : Nat → Option (List Token)) (d0 : List (String × Mask)) (ed : EditorState) :
    MaskController.apply cursorStyle pattern mask ⟨some ed, lt0, d0⟩ =
      ⟨some { ed with rendered := (evictStale pattern.source
          (applyAcc cursorStyle lt0 pattern mask ed d0)
          (commitBase pattern.source (applyAcc cursorStyle lt0 pattern mask ed d0)
            (commitDerived (applyAcc cursorStyle lt0 pattern mask ed d0) ed.rendered))) },
       lt0,
       (applyAcc cursorStyle lt0 pattern mask ed d0).dmap.filter
         fun e => keepKey pattern.source (applyAcc cursorStyle lt0 pattern mask ed d0).mrKeys e.1⟩ :=
  rfl

/-! ## C3: the derived decoration key -/

/-- A pattern with source `(a|b)` matching `a` at offset 0 once. -/
def patAB : Pattern := ⟨"(a|b)", fun pos => if pos = 0 then some ⟨0, "a"⟩ else none⟩

/-- A mask with the keyed map `a ↦ {text := "α"}` and no scope. -/
def maskAlpha : Mask := ⟨some (MaskText.byMatch [("a", mrAlpha)]), none, none, none, none,
  none, none, none, none, none⟩

/-- Counterexample to C3 as stated: the decorated match `a` (replacement
text `α`) is grouped under the key `(a|b)@@@α` — base key, separator and
*replacement text* — which does not even end with the literal matched text
`a`, so the key is not the base key concatenated with a separator and the
literal matched text. -/
theorem claim_C3_counterexample :
    (processMatch "line" noTokens posId [(3, 3)] patAB maskAlpha accEmpty ⟨0, "a"⟩).options.map
        Prod.fst = ["(a|b)@@@α"]
    ∧ strEnds "(a|b)@@@α" "a" = false :=
  ⟨by decide, by decide⟩

/-- Claim C3 (amended): for every decorated match whose keyed-map entry
carries nonempty replacement text, the effective decoration key is the
base key (the pattern's source) concatenated with the separator `@@@` and
the entry's *replacement text*, and the match's range is pushed under that
key. -/
theorem claim_C3_amended_derived_key (cursorStyle : String) (lt : Nat → Option (List Token))
    (posAt : Nat → Nat × Nat) (sels : List (Nat × Nat)) (pattern : Pattern) (mask : Mask)
    (acc : MatchAcc) (m : RegexMatch) (e : MatchReplaceValue)
    (he : getMatchReplace mask m.matched = some e)
    (ht : e.text ≠ "")
    (hd : decideLoop cursorStyle lt (posAt m.index).1 (posAt m.index).2 m.index
      m.matched.length mask.scope ((getMatchReplace mask m.matched).bind fun x => x.scope)
      false sels = true) :
    ∃ K D, processMatch cursorStyle lt posAt sels pattern mask acc m =
      ⟨optPush acc.options (pattern.source ++ "@@@" ++ e.text)
          ⟨posAt m.index, posAt (m.index + m.matched.length), e.hover⟩,
        K, D⟩ := by
  have hd' : decideLoop cursorStyle lt (posAt m.index).1 (posAt m.index).2 m.index
      m.matched.length mask.scope ((getMatchReplace mask m.matched).bind fun e => e.scope)
      false sels = true := hd
  cases hm : memKey acc.mrKeys (pattern.source ++ "@@@" ++ e.text) with
  | true =>
    refine ⟨acc.mrKeys, acc.dmap, ?_⟩
    rw [processMatch_derived_seen _ _ _ _ _ _ _ _ _ hd' he ht hm]
  | false =>
    refine ⟨acc.mrKeys ++ [pattern.source ++ "@@@" ++ e.text],
      initDecoration acc.dmap (pattern.source ++ "@@@" ++ e.text) (derivedMask e), ?_⟩
    rw [processMatch_derived_new _ _ _ _ _ _ _ _ _ hd' he ht hm]

/-- Witness for the amended C3 on the concrete keyed-map run. -/
theorem claim_C3_amended_witness :
    ∃ K D, processMatch "line" noTokens posId [(3, 3)] patAB maskAlpha accEmpty ⟨0, "a"⟩ =
      ⟨optPush accEmpty.options (patAB.source ++ "@@@" ++ mrAlpha.text)
          ⟨posId 0, posId (0 + "a".length), mrAlpha.hover⟩,
        K, D⟩ :=
  claim_C3_amended_derived_key "line" noTokens posId [(3, 3)] patAB maskAlpha accEmpty
    ⟨0, "a"⟩ mrAlpha (by decide) (by decide) (by decide)

/-! ## C9: operations with no active editor -/

/-- A controller with no editor but a nonempty decoration cache. -/
def ctrlNoEditor : MaskController := ⟨none, noTokens, [("p", maskPlain)]⟩

/-- Counterexample to C9 as stated: with no active editor, `clear` still
empties the decoration resource cache (the `decorationTypeMap.clear()`
call sits outside the editor guard), so not every operation leaves the
cache unmodified. -/
theorem claim_C9_counterexample :
    ctrlNoEditor.decorationTypeMap = [("p", maskPlain)]
    ∧ (MaskController.clear ctrlNoEditor).decorationTypeMap = [] :=
  ⟨rfl, rfl⟩

/-- Claim C9 (amended): with no active editor, `apply` is a complete no-op
(the state is returned unchanged: nothing is created, rendered or
evicted), and `clear` renders nothing and changes nothing either — except
that it still empties the decoration resource cache. -/
theorem claim_C9_amended_no_editor (cursorStyle : String) (pattern : Pattern) (mask : Mask)
    (st : MaskController) (h : st.editor = none) :
    MaskController.apply cursorStyle pattern mask st = st
    ∧ MaskController.clear st = { st with decorationTypeMap := [] } := by
  obtain ⟨edo, lt0, d0⟩ := st
  cases h
  exact ⟨rfl, rfl⟩

/-- Witness for the amended C9 at the concrete no-editor controller. -/
theorem claim_C9_witness :
    MaskController.apply "line" patX maskPlain ctrlNoEditor = ctrlNoEditor
    ∧ MaskController.clear ctrlNoEditor = { ctrlNoEditor with decorationTypeMap := [] } :=
  claim_C9_amended_no_editor "line" patX maskPlain ctrlNoEditor rfl

/-! ## C4: eviction leaves exactly the base key and this call's derived keys -/

/-- `applyAcc` written as an explicit fold from the initialized cache. -/
theorem applyAcc_def (cursorStyle : String) (lt : Nat → Option (List Token))
    (pattern : Pattern) (mask : Mask) (ed : EditorState) (dmap : List (String × Mask)) :
    applyAcc cursorStyle lt pattern mask ed dmap =
      List.foldl (processMatch cursorStyle lt ed.positionAt ed.selections pattern mask)
        ⟨[], [], initDecoration dmap pattern.source mask⟩ (applyMatches pattern ed) := by
  unfold applyAcc
  rw [initIf_eq]

/-- The base key is always cached after the match loop. -/
theorem applyAcc_hasKey_base (cursorStyle : String) (lt : Nat → Option (List Token))
    (pattern : Pattern) (mask : Mask) (ed : EditorState) (dmap : List (String × Mask)) :
    hasKey (applyAcc cursorStyle lt pattern mask ed dmap).dmap pattern.source = true := by
  rw [applyAcc_def]
  refine (applyFold_mono cursorStyle lt ed.positionAt ed.selections pattern mask
    (applyMatches pattern ed) ⟨[], [], initDecoration dmap pattern.source mask⟩).1
    pattern.source ?_
  show hasKey (initDecoration dmap pattern.source mask) pattern.source = true
  rw [initDecoration_hasKey]
  simp

/-- Every derived key of the call is cached after the match loop. -/
theorem applyAcc_hasKey_derived (cursorStyle : String) (lt : Nat → Option (List Token))
    (pattern : Pattern) (mask : Mask) (ed : EditorState) (dmap : List (String × Mask))
    (k : String) (hk : memKey (applyAcc cursorStyle lt pattern mask ed dmap).mrKeys k = true) :
    hasKey (applyAcc cursorStyle lt pattern mask ed dmap).dmap k = true := by
  rw [applyAcc_def] at hk ⊢
  refine (applyFold_mono cursorStyle lt ed.positionAt ed.selections pattern mask
    (applyMatches pattern ed) ⟨[], [], initDecoration dmap pattern.source mask⟩).2.2.2
    ?_ k hk
  intro x hx
  simp [memKey] at hx

/-- Keys cached before the call stay cached through the match loop. -/
theorem applyAcc_hasKey_mono (cursorStyle : String) (lt : Nat → Option (List Token))
    (pattern : Pattern) (mask : Mask) (ed : EditorState) (dmap : List (String × Mask))
    (k : String) (hk : hasKey dmap k = true) :
    hasKey (applyAcc cursorStyle lt pattern mask ed dmap).dmap k = true := by
  rw [applyAcc_def]
  refine (applyFold_mono cursorStyle lt ed.positionAt ed.selections pattern mask
    (applyMatches pattern ed) ⟨[], [], initDecoration dmap pattern.source mask⟩).1 k ?_
  show hasKey (initDecoration dmap pattern.source mask) k = true
  rw [initDecoration_hasKey, hk]
  rfl

/-- Claim C4: when `apply` returns (with an editor present), the cache's
key set is exactly the pattern's base key plus this call's derived keys:
every key that is neither has had its ranges rendered empty and has been
removed from the cache. -/
theorem claim_C4_stale_eviction (cursorStyle : String) (pattern : Pattern) (mask : Mask)
    (st : MaskController) (ed : EditorState) (h : st.editor = some ed) :
    (∀ k, hasKey (MaskController.apply cursorStyle pattern mask st).decorationTypeMap k = true ↔
      (k = pattern.source ∨
        memKey (applyAcc cursorStyle st.scopedTokens pattern mask ed
          st.decorationTypeMap).mrKeys k = true))
    ∧ (∀ k, hasKey st.decorationTypeMap k = true → k ≠ pattern.source →
        memKey (applyAcc cursorStyle st.scopedTokens pattern mask ed
          st.decorationTypeMap).mrKeys k = false →
        hasKey (MaskController.apply cursorStyle pattern mask st).decorationTypeMap k = false ∧
        ∃ ed', (MaskController.apply cursorStyle pattern mask st).editor = some ed' ∧
          ed'.rendered k = []) := by
  obtain ⟨edo, lt0, d0⟩ := st
  cases h
  rw [apply_some]
  constructor
  · intro k
    show (hasKey ((applyAcc cursorStyle lt0 pattern mask ed d0).dmap.filter
      fun e => keepKey pattern.source (applyAcc cursorStyle lt0 pattern mask ed d0).mrKeys e.1) k
        = true) ↔ _
    rw [hasKey_filter]
    constructor
    · intro hk
      rcases Bool.and_eq_true_iff.mp hk with ⟨h1, _⟩
      rw [keepKey] at h1
      by_cases hs : k = pattern.source
      · exact Or.inl hs
      · rw [if_neg hs] at h1
        exact Or.inr h1
    · intro hk
      rcases hk with hs | hm
      · subst hs
        rw [keepKey, if_pos rfl, applyAcc_hasKey_base]
        rfl
      · rw [applyAcc_hasKey_derived cursorStyle lt0 pattern mask ed d0 k hm]
        rw [keepKey]
        by_cases hs : k = pattern.source
        · rw [if_pos hs]; rfl
        · rw [if_neg hs, hm]; rfl
  · intro k hk0 hs hm
    constructor
    · show hasKey ((applyAcc cursorStyle lt0 pattern mask ed d0).dmap.filter
        fun e => keepKey pattern.source (applyAcc cursorStyle lt0 pattern mask ed d0).mrKeys e.1) k
          = false
      rw [hasKey_filter, keepKey, if_neg hs, hm]
      rfl
    · refine ⟨_, rfl, ?_⟩
      show evictStale pattern.source (applyAcc cursorStyle lt0 pattern mask ed d0)
        (commitBase pattern.source (applyAcc cursorStyle lt0 pattern mask ed d0)
          (commitDerived (applyAcc cursorStyle lt0 pattern mask ed d0) ed.rendered)) k = []
      rw [evictStale_eval]
      rw [any_of_hasKey (applyAcc cursorStyle lt0 pattern mask ed d0).dmap k
        (fun y => !keepKey pattern.source (applyAcc cursorStyle lt0 pattern mask ed d0).mrKeys y)
        (applyAcc_hasKey_mono cursorStyle lt0 pattern mask ed d0 k hk0)
        (by show (!(keepKey pattern.source
              (applyAcc cursorStyle lt0 pattern mask ed d0).mrKeys k)) = true
            rw [keepKey, if_neg hs, hm]
            rfl)]
      rfl

/-- A controller holding an editor and one stale cached key. -/
def ctrlStale : MaskController := ⟨some edHH, noTokens, [("old", maskPlain)]⟩

/-- Witness for C4: after applying the `x` pattern, the stale key `old` is
gone and rendered empty, while the base key `x` is cached. -/
theorem claim_C4_witness :
    hasKey (MaskController.apply "line" patX maskPlain ctrlStale).decorationTypeMap "old" = false
    ∧ (∃ ed', (MaskController.apply "line" patX maskPlain ctrlStale).editor = some ed' ∧
        ed'.rendered "old" = [])
    ∧ hasKey (MaskController.apply "line" patX maskPlain ctrlStale).decorationTypeMap "x" = true := by
  have h := claim_C4_stale_eviction "line" patX maskPlain ctrlStale edHH rfl
  have h2 := h.2 "old" (by decide) (by decide) (by decide)
  exact ⟨h2.1, h2.2, (h.1 "x").mpr (Or.inl rfl)⟩

/-- No cache entry whose key satisfies the keep predicate contributes to
the eviction condition at that key. -/
theorem any_keep_false (d : List (String × Mask)) (keepf : String → Bool) (x : String)
    (hx : keepf x = true) :
    (d.any fun e => decide (e.1 = x) && !keepf e.1) = false := by
  rcases Bool.eq_false_or_eq_true (d.any fun e => decide (e.1 = x) && !keepf e.1) with h | h
  swap
  · exact h
  · rcases List.any_eq_true.mp h with ⟨e, _, hp⟩
    rcases Bool.and_eq_true_iff.mp hp with ⟨h1, h2⟩
    have : e.1 = x := of_decide_eq_true h1
    rw [this, hx] at h2
    cases h2

/-- Claim C7: `apply` is idempotent with respect to its rendered output
and its cache: for a fixed caret style, pattern, mask and editor (document
text and selections), applying twice yields exactly the state of applying
once — identical per-key rendered decoration range sets and an identical
decoration resource cache. -/
theorem claim_C7_apply_idempotent (cursorStyle : String) (pattern : Pattern) (mask : Mask)
    (st : MaskController) :
    MaskController.apply cursorStyle pattern mask
        (MaskController.apply cursorStyle pattern mask st) =
      MaskController.apply cursorStyle pattern mask st := by
  obtain ⟨edo, lt0, d0⟩ := st
  cases edo with
  | none => rfl
  | some ed =>
    rw [apply_some, apply_some]
    set A1 := applyAcc cursorStyle lt0 pattern mask ed d0 with hA1
    set R3 := evictStale pattern.source A1
      (commitBase pattern.source A1 (commitDerived A1 ed.rendered)) with hR3
    set d1 := List.filter (fun e => keepKey pattern.source A1.mrKeys e.1) A1.dmap with hd1
    set ed1 : EditorState := ⟨ed.docText, ed.positionAt, ed.selections, R3⟩ with hed1
    set A2 := applyAcc cursorStyle lt0 pattern mask ed1 d1 with hA2
    -- base key is kept in the filtered cache
    have f1 : hasKey d1 pattern.source = true := by
      rw [hd1, hasKey_filter]
      have hb : hasKey A1.dmap pattern.source = true := by
        rw [hA1]; exact applyAcc_hasKey_base cursorStyle lt0 pattern mask ed d0
      rw [hb, keepKey, if_pos rfl]
      rfl
    -- the second pass scans the same matches with the same positions
    have hpos : ed1.positionAt = ed.positionAt := rfl
    have hsel : ed1.selections = ed.selections := rfl
    have hms : applyMatches pattern ed1 = applyMatches pattern ed := rfl
    have f3 : A2 = List.foldl
        (processMatch cursorStyle lt0 ed.positionAt ed.selections pattern mask)
        ⟨[], [], d1⟩ (applyMatches pattern ed) := by
      rw [hA2, applyAcc_def, hpos, hsel, hms]
      have : initDecoration d1 pattern.source mask = d1 := by
        rw [initDecoration, if_pos f1]
      rw [this]
    have f4 : A1 = List.foldl
        (processMatch cursorStyle lt0 ed.positionAt ed.selections pattern mask)
        ⟨[], [], initDecoration d0 pattern.source mask⟩ (applyMatches pattern ed) := by
      rw [hA1, applyAcc_def]
    -- same options and derived keys on the second pass
    have f5 := applyFold_dmap_indep cursorStyle lt0 ed.positionAt ed.selections pattern mask
      (applyMatches pattern ed) [] [] d1 (initDecoration d0 pattern.source mask)
    have hopt : A2.options = A1.options := by rw [f3, f4]; exact f5.1
    have hkeys : A2.mrKeys = A1.mrKeys := by rw [f3, f4]; exact f5.2
    -- every derived key is kept in the filtered cache
    have f6 : ∀ x, memKey A1.mrKeys x = true → hasKey d1 x = true := by
      intro x hx
      rw [hd1, hasKey_filter]
      have hb : hasKey A1.dmap x = true := by
        rw [hA1]
        exact applyAcc_hasKey_derived cursorStyle lt0 pattern mask ed d0 x (hA1 ▸ hx)
      rw [hb, keepKey]
      by_cases hs : x = pattern.source
      · rw [if_pos hs]; rfl
      · rw [if_neg hs, hx]; rfl
    -- the second pass leaves the cache untouched
    have f7 : A2.dmap = d1 := by
      rw [f3]
      exact applyFold_dmap_fixed cursorStyle lt0 ed.positionAt ed.selections pattern mask
        (applyMatches pattern ed) ⟨[], [], d1⟩
        (fun x hx => f6 x (by rw [← f3] at hx; rw [hkeys] at hx; exact hx))
    have hbase2 : hasKey A2.dmap pattern.source = true := by rw [f7]; exact f1
    -- the second eviction pass touches nothing
    have hany1 : ∀ x, (d1.any fun e => decide (e.1 = x) && !keepKey pattern.source A1.mrKeys e.1)
        = false := by
      intro x
      rcases Bool.eq_false_or_eq_true
        (d1.any fun e => decide (e.1 = x) && !keepKey pattern.source A1.mrKeys e.1) with h | h
      swap
      · exact h
      · rcases List.any_eq_true.mp h with ⟨e, he, hp⟩
        have hkeep : keepKey pattern.source A1.mrKeys e.1 = true := by
          rw [hd1] at he
          exact (List.mem_filter.mp he).2
        rcases Bool.and_eq_true_iff.mp hp with ⟨_, h2⟩
        rw [hkeep] at h2
        cases h2
    -- rendered state unchanged by the second pass
    have her : ed1.rendered = R3 := rfl
    have hrend : evictStale pattern.source A2
        (commitBase pattern.source A2 (commitDerived A2 ed1.rendered)) = R3 := by
      funext x
      rw [evictStale_eval, f7, hkeys, hany1 x, if_neg (by simp)]
      rw [commitBase_eval, hbase2, hopt, Bool.and_true]
      by_cases hx : x = pattern.source
      · rw [if_pos (by rw [hx]; exact decide_eq_true rfl : decide (x = pattern.source) = true)]
        -- right side: R3 at the base key
        rw [hR3, evictStale_eval,
          any_keep_false A1.dmap (keepKey pattern.source A1.mrKeys) x
            (by rw [hx, keepKey, if_pos rfl]),
          if_neg (by simp),
          commitBase_eval]
        have hb1 : hasKey A1.dmap pattern.source = true := by
          rw [hA1]; exact applyAcc_hasKey_base cursorStyle lt0 pattern mask ed d0
        rw [hb1, Bool.and_true,
          if_pos (by rw [hx]; exact decide_eq_true rfl : decide (x = pattern.source) = true)]
      · rw [if_neg (by simp [hx])]
        rw [commitDerived_eval, hkeys, f7, hopt, her]
        by_cases hm : memKey A1.mrKeys x = true
        · rw [hm, f6 x hm, Bool.and_self, if_pos rfl]
          rw [hR3, evictStale_eval,
            any_keep_false A1.dmap (keepKey pattern.source A1.mrKeys) x
              (by rw [keepKey, if_neg hx, hm]),
            if_neg (by simp),
            commitBase_eval,
            if_neg (by simp [hx]),
            commitDerived_eval, hm]
          have hb : hasKey A1.dmap x = true := by
            rw [hA1]
            exact applyAcc_hasKey_derived cursorStyle lt0 pattern mask ed d0 x (hA1 ▸ hm)
          rw [hb, Bool.and_self, if_pos rfl]
        · have hm' : memKey A1.mrKeys x = false := Bool.eq_false_iff.mpr hm
          rw [hm', Bool.false_and, if_neg (by simp)]
    -- the second filtered cache equals the first
    have hdmap : List.filter (fun e => keepKey pattern.source A2.mrKeys e.1) A2.dmap = d1 := by
      rw [hkeys, f7]
      rw [hd1]
      refine List.filter_eq_self.mpr ?_
      intro e he
      exact (List.mem_filter.mp he).2
    rw [hrend, hdmap]
